import Mathlib

/-!
Shallow embedding of the game team system (src/app.py).

The database state is modelled as two in-memory tables: `players` and
`teams`.  Supabase calls are translated as follows:

* `table(..).update(patch).eq(col, v)` becomes a `List.map` that patches
  every row whose column equals `v`;
* `table(..).select(..).eq("id", v)` followed by `data[0]` (or `.single()`)
  becomes `List.find?`;
* `insert` appends a row;
* `delete` filters rows out;
* the `in_` batched filter becomes a `List.contains` test inside a map.

Timestamps (`created_at`, `processed_at`), the request tables' stored
`status` bookkeeping and the Streamlit UI are not modelled: no claim
depends on them.  Fallible operations return `Option` (`none` models the
Python path that raises or returns `False`); the Python `class` column is
named `cls` because `class` is a Lean keyword.
-/

namespace GameTeam

structure Player where
  game_id : String
  cls : String
  is_selected : Bool
deriving Repr, DecidableEq

structure Team where
  id : Nat
  captain : String
  members : List String
deriving Repr, DecidableEq

structure DB where
  players : List Player
  teams : List Team
deriving Repr, DecidableEq

/-- `Config.MAX_TEAM_SIZE` from `src/app.py`. -/
def MAX_TEAM_SIZE : Nat := 6

/-- `Config.MIN_TEAM_SIZE` from `src/app.py`. -/
def MIN_TEAM_SIZE : Nat := 2

/-- `update_player_selection_status`: update `is_selected` on every row
whose `game_id` matches. -/
def update_player_selection_status (st : DB) (gid : String) (sel : Bool) : DB :=
  { st with players := st.players.map fun p =>
      if p.game_id == gid then { p with is_selected := sel } else p }

/-- One supabase `teams` update keyed by `id`: patch every row whose `id`
matches. -/
def mapTeamsById (st : DB) (tid : Nat) (f : Team → Team) : DB :=
  { st with teams := st.teams.map fun t => if t.id == tid then f t else t }

/-- `teams.update({'captain': c}).eq('id', tid)`. -/
def setCaptainById (st : DB) (tid : Nat) (c : String) : DB :=
  mapTeamsById st tid fun t => { t with captain := c }

/-- The `max(existing ids) + 1` (or `1` on an empty table) allocation in
`create_team_in_db`. -/
def next_team_id (st : DB) : Nat :=
  (st.teams.map Team.id).foldr max 0 + 1

/-- `create_team_in_db`: filter the captain out of the member list, check
the size bounds, insert the team, then flip the selection flags one by
one. -/
def create_team_in_db (st : DB) (captain : String) (members0 : List String) : Option DB :=
  let members := members0.filter fun m => m != captain
  if members.length + 1 > MAX_TEAM_SIZE then none
  else if members.length + 1 < MIN_TEAM_SIZE then none
  else
    let st1 : DB := { st with teams := st.teams ++ [⟨next_team_id st, captain, members⟩] }
    let st2 := update_player_selection_status st1 captain true
    some (members.foldl (fun s m => update_player_selection_status s m true) st2)

/-- `delete_team_from_db`: unselect every listed participant, then delete
the team row. -/
def delete_team_from_db (st : DB) (team_id : Nat) (members : List String) : DB :=
  let st1 := members.foldl (fun s m => update_player_selection_status s m false) st
  { st1 with teams := st1.teams.filter fun t => t.id != team_id }

/-- `update_team_members`: reject a payload containing duplicates
(`len(members) != len(set(members))`), else write the member list. -/
def update_team_members (st : DB) (team_id : Nat) (members : List String) : Option DB :=
  if members.Nodup then
    some (mapTeamsById st team_id fun t => { t with members := members })
  else none

/-- `update_team_captain`: look the team up, require the proposed captain
to be a current member or the current captain, then write
`captain := new_captain` and `members := (members without new_captain) ++ [old captain]`. -/
def update_team_captain (st : DB) (team_id : Nat) (new_captain : String) : Option DB :=
  match st.teams.find? fun t => t.id == team_id with
  | none => none
  | some team =>
    if !(team.members.contains new_captain) && new_captain != team.captain then none
    else
      let updated_members := (team.members.filter fun m => m != new_captain) ++ [team.captain]
      some (mapTeamsById st team_id fun t =>
        { t with
            captain := new_captain
            members := updated_members })

/-- `remove_member_from_team`: require the member to be present, delegate
to `update_team_members` with the member filtered out, then unselect the
member. -/
def remove_member_from_team (st : DB) (team_id : Nat) (member : String) : Option DB :=
  match st.teams.find? fun t => t.id == team_id with
  | none => none
  | some team =>
    if !(team.members.contains member) then none
    else
      (update_team_members st team_id (team.members.filter fun m => m != member)).map
        fun s => update_player_selection_status s member false

/-- The flattened "should be selected" set of
`check_and_fix_selection_consistency`: every team's captain plus members. -/
def team_players (teams : List Team) : List String :=
  teams.flatMap fun t => t.captain :: t.members

/-- `check_and_fix_selection_consistency`: compute the false-positive and
false-negative id sets from the snapshot, then apply one batched `False`
write and one batched `True` write. -/
def check_and_fix_selection_consistency (st : DB) : DB :=
  let tp := team_players st.teams
  let false_positives :=
    (st.players.filter fun p => p.is_selected && !(tp.contains p.game_id)).map Player.game_id
  let false_negatives :=
    (st.players.filter fun p => !p.is_selected && tp.contains p.game_id).map Player.game_id
  let st1 : DB := { st with players := st.players.map fun p =>
      if false_positives.contains p.game_id then { p with is_selected := false } else p }
  { st1 with players := st1.players.map fun p =>
      if false_negatives.contains p.game_id then { p with is_selected := true } else p }

/-- `teams.select(..).eq('id', tid)` row lookup (`data[0]` / `.single()`). -/
def find_team (st : DB) (tid : Nat) : Option Team :=
  st.teams.find? fun t => t.id == tid

/-- `players.select(..).eq('game_id', gid).single()` row lookup. -/
def find_player (st : DB) (gid : String) : Option Player :=
  st.players.find? fun p => p.game_id == gid

/-- A row of the `team_change_requests` table; `none` models a column the
submit path did not populate (a missing key in the Python dict). -/
structure TeamChangeRequest where
  team_id : Nat
  request_type : String
  requester_id : String
  current_captain : String
  status : String
  reason : Option String
  proposed_captain : Option String
  member_to_add : Option String
  member_to_remove : Option String
  original_request : Option String
deriving Repr, DecidableEq

/-- `create_team_change_request`: authorize the requester, validate the
payload per request type, rewriting a `remove_member` request that
targets the captain into a `change_captain` request, and return the row
inserted into `team_change_requests` (`none` models every raised
`ValueError`, which the function catches and turns into `False`). -/
def create_team_change_request (st : DB) (team_id : Nat) (request_type : String)
    (requester_id : String) (proposed_captain : Option String)
    (member_to_add : Option String) (member_to_remove : Option String)
    (reason : Option String) : Option TeamChangeRequest :=
  match find_team st team_id with
  | none => none
  | some team =>
    let is_captain := requester_id == team.captain
    let is_member := is_captain || team.members.contains requester_id
    if !is_member then none
    else
      let base : TeamChangeRequest :=
        { team_id := team_id
          request_type := request_type
          requester_id := requester_id
          current_captain := team.captain
          status := "pending"
          reason := reason
          proposed_captain := none
          member_to_add := none
          member_to_remove := none
          original_request := none }
      if request_type == "change_captain" then
        if !is_captain then none
        else
          match proposed_captain with
          | none => none
          | some p =>
            if team.members.contains p then some { base with proposed_captain := some p }
            else none
      else if request_type == "add_member" then
        match member_to_add with
        | none => none
        | some a =>
          match find_player st a with
          | none => none
          | some pl =>
            if pl.is_selected then none
            else some { base with member_to_add := some a }
      else if request_type == "remove_member" then
        match member_to_remove with
        | none => none
        | some r =>
          if r == team.captain then
            match team.members with
            | [] => none
            | m0 :: _ =>
              if requester_id == team.captain then
                some { base with
                         request_type := "change_captain"
                         proposed_captain := some m0
                         original_request := some "remove_member"
                         member_to_remove := some r }
              else
                some { base with
                         request_type := "change_captain"
                         proposed_captain := some requester_id
                         original_request := some "remove_member"
                         member_to_remove := some r }
          else
            if team.members.contains r then some { base with member_to_remove := some r }
            else none
      else none

/-- `approve_team_change_request`: look up the team and dispatch on the
stored `request_type`.  The member lists written back are computed from
the fetched snapshot (`team['members']`), exactly as in the source; the
final `status := approved` stamp on the request row is not part of the
modelled state. -/
def approve_team_change_request (st : DB) (req : TeamChangeRequest) : Option DB :=
  match find_team st req.team_id with
  | none => none
  | some team =>
    if req.request_type == "remove_member" then
      match req.member_to_remove with
      | none => none
      | some target =>
        if target == team.captain then
          match team.members with
          | [] => none
          | m0 :: _ =>
            let st1 := mapTeamsById st team.id fun u =>
              { u with captain := m0, members := team.members.filter fun m => m != m0 }
            some (update_player_selection_status st1 target false)
        else
          let st1 := mapTeamsById st team.id fun u =>
            { u with members := team.members.filter fun m => m != target }
          some (update_player_selection_status st1 target false)
    else if req.request_type == "change_captain" then
      match req.proposed_captain with
      | none => none
      | some p =>
        some (mapTeamsById st team.id fun u =>
          { u with
              captain := p
              members := (team.members.filter fun m => m != p) ++ [team.captain] })
    else if req.request_type == "add_member" then
      match req.member_to_add with
      | none => none
      | some a =>
        match find_player st a with
        | none => none
        | some pl =>
          if pl.is_selected then none
          else
            let st1 := mapTeamsById st team.id fun u =>
              { u with members := team.members ++ [a] }
            some (update_player_selection_status st1 a true)
    else
      some st

/-- A row of the identity `change_requests` table.  An empty string in
`new_game_id` / `new_class` models the falsy (empty or null) column the
source tests with `or` and truthiness. -/
structure ChangeRequest where
  game_id : String
  new_game_id : String
  new_class : String
deriving Repr, DecidableEq

/-- Step 1 of `approve_change_request`: the OR-predicate discovery query
over `teams`. -/
def relatedTeams (st : DB) (old_id : String) : List Team :=
  st.teams.filter fun t => t.captain == old_id || t.members.contains old_id

/-- Step 2 of `approve_change_request`: walk the discovered teams; for
each team the player captains, pick a temporary captain among the other
members (via the `pick` parameter standing for `random.choice`), write it,
and record `(team_id, old_captain)`.  The result carries the state after
the writes made so far, the recorded pairs, and whether the loop finished
without raising. -/
def step2 (pick : List String → String) (old_id : String) :
    List Team → DB → List (Nat × String) → DB × List (Nat × String) × Bool
  | [], st, acc => (st, acc, true)
  | t :: rest, st, acc =>
    if t.captain == old_id then
      if t.members.isEmpty then (st, acc, false)
      else
        let avail := t.members.filter fun m => m != old_id
        if avail.isEmpty then (st, acc, false)
        else
          step2 pick old_id rest (setCaptainById st t.id (pick avail))
            (acc ++ [(t.id, old_id)])
    else step2 pick old_id rest st acc

/-- The compensating loop of `approve_change_request`'s `except` branch:
replay every recorded `(team_id, old_captain)` pair. -/
def rollback_temp (st : DB) (changes : List (Nat × String)) : DB :=
  changes.foldl (fun s c => setCaptainById s c.1 c.2) st

/-- Step 3 of `approve_change_request`: build `update_data` (the new id
only when it changed, the class only when provided) and write it to the
player row when non-empty. -/
def mutate_player (st : DB) (old_id new_id new_class : String) : DB :=
  if new_id == old_id && new_class == "" then st
  else
    { st with players := st.players.map fun p =>
        if p.game_id == old_id then
          { p with
              game_id := if new_id != old_id then new_id else p.game_id
              cls := if new_class != "" then new_class else p.cls }
        else p }

/-- One iteration of step 4 of `approve_change_request`: propagate the
rename into one discovered team, writing the snapshot-derived captain
and member list when the snapshot mentions the old id. -/
def propagate_team (old_id new_id : String) (st : DB) (t : Team) : DB :=
  if t.captain == old_id || t.members.contains old_id then
    mapTeamsById st t.id fun u =>
      { u with
          captain := if t.captain == old_id then new_id else u.captain
          members :=
            if t.members.contains old_id then
              t.members.map fun m => if m == old_id then new_id else m
            else u.members }
  else st

/-- Step 4 of `approve_change_request` with failure injection: `fuel =
some k` makes the loop raise just before its `(k+1)`-th team (modelling a
storage error mid-propagation); `fuel = none` runs to completion. -/
def step4 (old_id new_id : String) :
    List Team → Option Nat → DB → DB × Bool
  | [], _, st => (st, true)
  | _ :: _, some 0, st => (st, false)
  | t :: rest, fuel, st =>
    step4 old_id new_id rest (fuel.map Nat.pred) (propagate_team old_id new_id st t)

/-- The `new_id = request['new_game_id'] or old_id` fallback of
`approve_change_request`. -/
def effective_new_id (req : ChangeRequest) : String :=
  if req.new_game_id == "" then req.game_id else req.new_game_id

/-- `approve_change_request`: discovery, temporary captain handover,
identity mutation, propagation, with the `except` branch replaying the
recorded captains on any failure.  `mutateFails` injects a raise in the
identity-mutation step, `propFails` one inside the propagation loop; both
model the storage errors the source's `try` guards against. -/
def approve_change_request (pick : List String → String) (mutateFails : Bool)
    (propFails : Option Nat) (st : DB) (req : ChangeRequest) : Bool × DB :=
  let old_id := req.game_id
  let new_id := effective_new_id req
  let related := relatedTeams st old_id
  match step2 pick old_id related st [] with
  | (st2, changes, ok) =>
    if !ok then (false, rollback_temp st2 changes)
    else if mutateFails then (false, rollback_temp st2 changes)
    else
      let st3 := mutate_player st2 old_id new_id req.new_class
      match step4 old_id new_id related propFails st3 with
      | (st4, true) => (true, st4)
      | (st4, false) => (false, rollback_temp st4 changes)

/-- Specification function used by the proofs only: the per-team effect
of one step-2 temporary-captain write driven by the snapshot team `t`. -/
def tempUpd (pick : List String → String) (old : String) (t u : Team) : Team :=
  if u.id == t.id then
    { u with captain := pick (t.members.filter fun m => m != old) }
  else u

/-- Specification function used by the proofs only: the per-team effect
of the whole step-2 loop over the snapshot list `l`. -/
def phiFun (pick : List String → String) (old : String) (l : List Team) (u : Team) : Team :=
  l.foldl (fun u t => if t.captain == old then tempUpd pick old t u else u) u

/-- Specification function used by the proofs only: the per-team effect
of one step-4 propagation write driven by the snapshot team `t`. -/
def propUpd (old new : String) (t u : Team) : Team :=
  if t.captain == old || t.members.contains old then
    if u.id == t.id then
      { u with
          captain := if t.captain == old then new else u.captain
          members :=
            if t.members.contains old then
              t.members.map fun m => if m == old then new else m
            else u.members }
    else u
  else u

/-- Specification function used by the proofs only: the per-team effect
of the whole step-4 loop over the snapshot list `l`. -/
def psiFun (old new : String) (l : List Team) (u : Team) : Team :=
  l.foldl (fun u t => propUpd old new t u) u

/-- Spec §3 team invariant: no duplicate members, captain not a member. -/
def teamInv (t : Team) : Prop := t.members.Nodup ∧ t.captain ∉ t.members

/-- All teams of a state satisfy the invariant. -/
def dbTeamsInv (st : DB) : Prop := ∀ t ∈ st.teams, teamInv t

/-- Team ids are pairwise distinct (spec §3: unique, monotonically
allocated integer id). -/
def teamIdsNodup (st : DB) : Prop := (st.teams.map Team.id).Nodup

instance (t : Team) : Decidable (teamInv t) := by
  unfold teamInv; infer_instance

instance (st : DB) : Decidable (dbTeamsInv st) := by
  unfold dbTeamsInv; infer_instance

instance (st : DB) : Decidable (teamIdsNodup st) := by
  unfold teamIdsNodup; infer_instance

/-! ### Basic lemmas about the storage primitives -/

theorem mapTeamsById_teams (st : DB) (tid : Nat) (f : Team → Team) :
    (mapTeamsById st tid f).teams = st.teams.map fun t => if t.id == tid then f t else t := rfl

theorem mapTeamsById_players (st : DB) (tid : Nat) (f : Team → Team) :
    (mapTeamsById st tid f).players = st.players := rfl

theorem update_selection_teams (st : DB) (gid : String) (sel : Bool) :
    (update_player_selection_status st gid sel).teams = st.teams := rfl

theorem contains_eq_true_of_mem {l : List String} {a : String} (h : a ∈ l) :
    l.contains a = true := by
  simp [List.elem_eq_mem, h]

/-! ### C5: the captain-handover primitive -/

/-- Claim C5: on a team with captain `A` and member list `M` containing
`B`, `setCaptain` (that is, `update_team_captain`) succeeds and rewrites
every row of that team id to captain `B` with member list
`(M without B) ++ [A]`. -/
theorem setCaptain_handover (st : DB) (tid : Nat) (tm : Team) (B : String)
    (hfind : st.teams.find? (fun t => t.id == tid) = some tm)
    (hmem : B ∈ tm.members) :
    update_team_captain st tid B =
      some (mapTeamsById st tid fun t =>
        { t with
            captain := B
            members := (tm.members.filter fun m => m != B) ++ [tm.captain] }) := by
  unfold update_team_captain
  rw [hfind]
  simp only [contains_eq_true_of_mem hmem, Bool.not_true, Bool.false_and,
    Bool.false_eq_true, if_false]

/-- Witness for C5: the spec's own example
`setCaptain(team, B)` on `(captain=A, members=[B,C])` yields
`(captain=B, members=[C,A])`. -/
theorem setCaptain_handover_wit :
    update_team_captain ⟨[], [⟨1, "A", ["B", "C"]⟩]⟩ 1 "B" =
      some ⟨[], [⟨1, "B", ["C", "A"]⟩]⟩ := by
  rw [setCaptain_handover ⟨[], [⟨1, "A", ["B", "C"]⟩]⟩ 1 ⟨1, "A", ["B", "C"]⟩ "B"
    (by decide) (by decide)]
  rfl

/-! ### C7: team-creation size gate -/

/-- Claim C7: `create_team_in_db` first filters the captain out of the
member list and then succeeds exactly when the resulting size
`1 + len(members)` lies in `[MIN_TEAM_SIZE, MAX_TEAM_SIZE] = [2, 6]`. -/
theorem create_team_size_gate (st : DB) (c : String) (ms : List String) :
    (MIN_TEAM_SIZE = 2 ∧ MAX_TEAM_SIZE = 6) ∧
    ((create_team_in_db st c ms).isSome ↔
      MIN_TEAM_SIZE ≤ (ms.filter fun m => m != c).length + 1 ∧
        (ms.filter fun m => m != c).length + 1 ≤ MAX_TEAM_SIZE) := by
  refine ⟨⟨rfl, rfl⟩, ?_⟩
  unfold create_team_in_db
  by_cases h1 : (ms.filter fun m => m != c).length + 1 > MAX_TEAM_SIZE
  · simp only [h1, if_true, Option.isSome_none]
    constructor
    · intro h; cases h
    · intro h; omega
  · simp only [h1, if_false]
    by_cases h2 : (ms.filter fun m => m != c).length + 1 < MIN_TEAM_SIZE
    · simp only [h2, if_true, Option.isSome_none]
      constructor
      · intro h; cases h
      · intro h; omega
    · simp only [h2, if_false, Option.isSome_some, true_iff]
      omega

/-! ### C4: submission-time rewrite of a captain-targeting removal -/

/-- Claim C4: submitting a `remove_member` request whose target is the
team's captain (with a non-empty member list and an authorized requester)
stores a `change_captain` request carrying
`original_request = "remove_member"`, the removal target, and a proposed
captain that is the first listed member when the captain requests their
own removal, or the requester when an ordinary member requests it. -/
theorem submit_remove_captain_rewrite (st : DB) (tid : Nat) (tm : Team) (m0 : String)
    (rest : List String) (requester : String) (reason : Option String)
    (hfind : find_team st tid = some tm)
    (hmem : tm.members = m0 :: rest)
    (hauth : requester = tm.captain ∨ requester ∈ tm.members) :
    create_team_change_request st tid "remove_member" requester none none
        (some tm.captain) reason =
      some { team_id := tid
             request_type := "change_captain"
             requester_id := requester
             current_captain := tm.captain
             status := "pending"
             reason := reason
             proposed_captain := some (if requester = tm.captain then m0 else requester)
             member_to_add := none
             member_to_remove := some tm.captain
             original_request := some "remove_member" } := by
  unfold create_team_change_request
  rw [hfind]
  by_cases hr : requester = tm.captain
  · simp [hr, hmem]
  · have hm : requester ∈ tm.members := hauth.resolve_left hr
    simp [hr, hmem, contains_eq_true_of_mem (hmem ▸ hm)]
    intro hne
    rcases List.mem_cons.mp (hmem ▸ hm) with h | h
    · exact absurd h hne
    · exact h

/-- Witness for C4: the spec's own example, on `(captain=A, members=[B,C])`
the captain's self-removal request is stored as a `change_captain`
request proposing `B`. -/
theorem submit_remove_captain_rewrite_wit :
    create_team_change_request ⟨[], [⟨1, "A", ["B", "C"]⟩]⟩ 1 "remove_member" "A"
        none none (some "A") none =
      some { team_id := 1
             request_type := "change_captain"
             requester_id := "A"
             current_captain := "A"
             status := "pending"
             reason := none
             proposed_captain := some "B"
             member_to_add := none
             member_to_remove := some "A"
             original_request := some "remove_member" } := by
  rw [submit_remove_captain_rewrite ⟨[], [⟨1, "A", ["B", "C"]⟩]⟩ 1 ⟨1, "A", ["B", "C"]⟩
    "B" ["C"] "A" none (by decide) rfl (Or.inl rfl)]
  rfl

/-! ### C8: membership approval of add_member has no size gate -/

/-- Claim C8: approving an `add_member` request checks only that the
target is not already selected; it appends the target to the member list
and selects the target, with no team-size condition of any kind. -/
theorem approve_add_member_no_size_check (st : DB) (req : TeamChangeRequest)
    (tm : Team) (a : String) (pl : Player)
    (hty : req.request_type = "add_member")
    (hfind : find_team st req.team_id = some tm)
    (ha : req.member_to_add = some a)
    (hpl : find_player st a = some pl)
    (hsel : pl.is_selected = false) :
    approve_team_change_request st req =
      some (update_player_selection_status
        (mapTeamsById st tm.id fun u => { u with members := tm.members ++ [a] }) a true) := by
  unfold approve_team_change_request
  rw [hfind]
  simp [hty, ha, hpl, hsel]

/-- Witness for C8: a team already at `MAX_TEAM_SIZE = 6` participants
grows to 7 when an `add_member` request for an unselected player is
approved. -/
theorem approve_add_member_no_size_check_wit :
    approve_team_change_request
        ⟨[⟨"G", "c", false⟩], [⟨1, "A", ["B", "C", "D", "E", "F"]⟩]⟩
        ⟨1, "add_member", "A", "A", "pending", none, none, some "G", none, none⟩ =
      some ⟨[⟨"G", "c", true⟩], [⟨1, "A", ["B", "C", "D", "E", "F", "G"]⟩]⟩ := by
  rw [approve_add_member_no_size_check
    ⟨[⟨"G", "c", false⟩], [⟨1, "A", ["B", "C", "D", "E", "F"]⟩]⟩
    ⟨1, "add_member", "A", "A", "pending", none, none, some "G", none, none⟩
    ⟨1, "A", ["B", "C", "D", "E", "F"]⟩ "G" ⟨"G", "c", false⟩
    rfl (by decide) rfl (by decide) rfl]
  rfl

/-! ### C9: membership approval of remove_member never checks membership -/

/-- Claim C9: approving a `remove_member` request whose target differs
from the captain writes the filtered member list (a no-op when the target
is not a member) and unconditionally flips the target's `is_selected` to
false; no membership check is made. -/
theorem approve_remove_member_unconditional (st : DB) (req : TeamChangeRequest)
    (tm : Team) (target : String)
    (hty : req.request_type = "remove_member")
    (hfind : find_team st req.team_id = some tm)
    (ht : req.member_to_remove = some target)
    (hne : target ≠ tm.captain) :
    approve_team_change_request st req =
      some (update_player_selection_status
        (mapTeamsById st tm.id fun u =>
          { u with members := tm.members.filter fun m => m != target })
        target false) := by
  unfold approve_team_change_request
  rw [hfind]
  simp [hty, ht, hne]

/-- Witness for C9: the removal target `X` is not in the team `(A, [B])`
at approval time; the approval still succeeds, leaves the member list
as-is, and deselects `X`. -/
theorem approve_remove_member_unconditional_wit :
    ("X" : String) ∉ ["B"] ∧
    approve_team_change_request ⟨[⟨"X", "c", true⟩], [⟨1, "A", ["B"]⟩]⟩
        ⟨1, "remove_member", "A", "A", "pending", none, none, none, some "X", none⟩ =
      some ⟨[⟨"X", "c", false⟩], [⟨1, "A", ["B"]⟩]⟩ := by
  constructor
  · decide
  · rw [approve_remove_member_unconditional ⟨[⟨"X", "c", true⟩], [⟨1, "A", ["B"]⟩]⟩
      ⟨1, "remove_member", "A", "A", "pending", none, none, none, some "X", none⟩
      ⟨1, "A", ["B"]⟩ "X" rfl (by decide) rfl (by decide)]
    rfl

/-! ### C2: approval of change_captain ignores original_request -/

/-- Counterexample for C2 as stated: approving the `change_captain`
request produced by rewriting a removal of captain `A` (so
`original_request = "remove_member"`, `member_to_remove = A`) on team
`(captain=A, members=[B,C])` leaves `A` inside the member list (appended
by the handover) and leaves `A`'s `is_selected` untouched at `true` —
the demoted captain is neither excluded nor deselected. -/
theorem approve_change_captain_ignores_removal_cex :
    approve_team_change_request
        ⟨[⟨"A", "c", true⟩, ⟨"B", "c", true⟩, ⟨"C", "c", true⟩], [⟨1, "A", ["B", "C"]⟩]⟩
        ⟨1, "change_captain", "A", "A", "pending", none, some "B", none,
          some "A", some "remove_member"⟩ =
      some ⟨[⟨"A", "c", true⟩, ⟨"B", "c", true⟩, ⟨"C", "c", true⟩],
        [⟨1, "B", ["C", "A"]⟩]⟩ ∧
    ("A" : String) ∈ ["C", "A"] ∧
    Player.is_selected ⟨"A", "c", true⟩ = true := by
  exact ⟨by decide, by decide, rfl⟩

/-- Claim C2 amended: approving a `change_captain` request applies only
the handover primitive — captain becomes the proposed captain, the member
list becomes the old members without the proposed captain plus the old
captain appended — regardless of the request's `original_request` and
`member_to_remove` fields; no `is_selected` write occurs. -/
theorem approve_change_captain_handover_only (st : DB) (req : TeamChangeRequest)
    (tm : Team) (p : String)
    (hty : req.request_type = "change_captain")
    (hfind : find_team st req.team_id = some tm)
    (hp : req.proposed_captain = some p) :
    approve_team_change_request st req =
      some (mapTeamsById st tm.id fun u =>
        { u with
            captain := p
            members := (tm.members.filter fun m => m != p) ++ [tm.captain] }) := by
  unfold approve_team_change_request
  rw [hfind]
  simp [hty, hp]

/-- Witness for C2's amended claim: the counterexample input evaluated
through the theorem — the state written is exactly the handover, with the
players table untouched. -/
theorem approve_change_captain_handover_only_wit :
    approve_team_change_request
        ⟨[⟨"A", "c", true⟩, ⟨"B", "c", true⟩, ⟨"C", "c", true⟩], [⟨1, "A", ["B", "C"]⟩]⟩
        ⟨1, "change_captain", "A", "A", "pending", none, some "B", none,
          some "A", some "remove_member"⟩ =
      some ⟨[⟨"A", "c", true⟩, ⟨"B", "c", true⟩, ⟨"C", "c", true⟩],
        [⟨1, "B", ["C", "A"]⟩]⟩ := by
  rw [approve_change_captain_handover_only
    ⟨[⟨"A", "c", true⟩, ⟨"B", "c", true⟩, ⟨"C", "c", true⟩], [⟨1, "A", ["B", "C"]⟩]⟩
    ⟨1, "change_captain", "A", "A", "pending", none, some "B", none,
      some "A", some "remove_member"⟩
    ⟨1, "A", ["B", "C"]⟩ "B" rfl (by decide) rfl]
  rfl

/-! ### C1: the team invariant and its one-step preservation -/

/-- Counterexample for C1 as stated: `(captain=A, members=[B,C])`
satisfies the invariant, and `newCaptain = A` satisfies `setCaptain`'s
stated precondition (it is the current captain), yet the resulting team
`(captain=A, members=[B,C,A])` has its captain inside the member list. -/
theorem setCaptain_self_breaks_inv :
    teamInv ⟨1, "A", ["B", "C"]⟩ ∧
    update_team_captain ⟨[], [⟨1, "A", ["B", "C"]⟩]⟩ 1 "A" =
      some ⟨[], [⟨1, "A", ["B", "C", "A"]⟩]⟩ ∧
    ¬ teamInv ⟨1, "A", ["B", "C", "A"]⟩ := by
  exact ⟨by decide, by decide, by decide⟩

/-! ### C6: the consistency sweep -/

theorem contains_filter_map {ps : List Player}
    (hnd : (ps.map Player.game_id).Nodup)
    (pred : Player → Bool) {p : Player} (hp : p ∈ ps) :
    ((ps.filter pred).map Player.game_id).contains p.game_id = pred p := by
  cases hpred : pred p
  · have hmem : p.game_id ∉ (ps.filter pred).map Player.game_id := by
      intro hmem
      obtain ⟨r, hr, he⟩ := List.mem_map.mp hmem
      have hr' := List.mem_of_mem_filter hr
      have : r = p := List.inj_on_of_nodup_map hnd hr' hp he
      subst this
      exact absurd (List.of_mem_filter hr) (by simp [hpred])
    simp [List.elem_eq_mem, hmem]
  · have hmem : p.game_id ∈ (ps.filter pred).map Player.game_id :=
      List.mem_map_of_mem Player.game_id (List.mem_filter.mpr ⟨hp, hpred⟩)
    simp [List.elem_eq_mem, hmem]

theorem sweep_point_gid (fpl fnl : List String) (p : Player) :
    ((fun q : Player =>
        if fnl.contains q.game_id then { q with is_selected := true } else q)
      ((fun q : Player =>
        if fpl.contains q.game_id then { q with is_selected := false } else q) p)).game_id
      = p.game_id := by
  dsimp only
  split <;> split <;> rfl

theorem sweep_point (tp fpl fnl : List String) (p : Player)
    (hfp : fpl.contains p.game_id = (p.is_selected && !(tp.contains p.game_id)))
    (hfn : fnl.contains p.game_id = (!p.is_selected && tp.contains p.game_id)) :
    ((fun q : Player =>
        if fnl.contains q.game_id then { q with is_selected := true } else q)
      ((fun q : Player =>
        if fpl.contains q.game_id then { q with is_selected := false } else q) p)).is_selected
      = tp.contains p.game_id := by
  dsimp only
  cases h1 : p.is_selected <;> cases h2 : tp.contains p.game_id <;>
    rw [h1, h2] at hfp hfn <;>
    simp only [Bool.not_false, Bool.not_true, Bool.and_false, Bool.and_true,
      Bool.false_and, Bool.true_and] at hfp hfn <;>
    simp only [hfp, hfn, if_true, if_false, Bool.false_eq_true, h1, h2,
      Bool.true_eq_false, ite_false, ite_true]

/-- Claim C6: immediately after the consistency sweep, every player's
`is_selected` flag equals membership of the player's `game_id` in the
union over all teams of `{captain} ∪ members` (player ids being unique,
per the data model). -/
theorem sweep_fixes_selection (st : DB)
    (hnd : (st.players.map Player.game_id).Nodup) :
    ∀ q ∈ (check_and_fix_selection_consistency st).players,
      q.is_selected = (team_players st.teams).contains q.game_id := by
  intro q hq
  have hpl : (check_and_fix_selection_consistency st).players =
      (st.players.map fun p =>
        if ((st.players.filter fun r =>
              r.is_selected && !((team_players st.teams).contains r.game_id)).map
              Player.game_id).contains p.game_id
        then { p with is_selected := false } else p).map fun p =>
        if ((st.players.filter fun r =>
              !r.is_selected && (team_players st.teams).contains r.game_id).map
              Player.game_id).contains p.game_id
        then { p with is_selected := true } else p := rfl
  rw [hpl, List.map_map] at hq
  clear hpl
  obtain ⟨p, hp, rfl⟩ := List.mem_map.mp hq
  have hfp := contains_filter_map hnd
    (fun r => r.is_selected && !((team_players st.teams).contains r.game_id)) hp
  have hfn := contains_filter_map hnd
    (fun r => !r.is_selected && (team_players st.teams).contains r.game_id) hp
  simp only at hfp hfn
  rw [Function.comp_apply, sweep_point_gid]
  exact sweep_point (team_players st.teams) _ _ p hfp hfn

/-- Witness for C6: a drifted state — `A` unselected though captaining a
team, `D` selected though in no team — is repaired by the sweep, and
afterwards every flag agrees with membership. -/
theorem sweep_fixes_selection_wit :
    ((⟨[⟨"A", "c", false⟩, ⟨"B", "c", true⟩, ⟨"D", "c", true⟩],
        [⟨1, "A", ["B"]⟩]⟩ : DB).players.map Player.game_id).Nodup ∧
    ∀ q ∈ (check_and_fix_selection_consistency
        ⟨[⟨"A", "c", false⟩, ⟨"B", "c", true⟩, ⟨"D", "c", true⟩], [⟨1, "A", ["B"]⟩]⟩).players,
      q.is_selected = (team_players
        (⟨[⟨"A", "c", false⟩, ⟨"B", "c", true⟩, ⟨"D", "c", true⟩],
          [⟨1, "A", ["B"]⟩]⟩ : DB).teams).contains q.game_id :=
  ⟨by decide,
    sweep_fixes_selection
      ⟨[⟨"A", "c", false⟩, ⟨"B", "c", true⟩, ⟨"D", "c", true⟩], [⟨1, "A", ["B"]⟩]⟩
      (by decide)⟩

/-! ### Lemmas about captain writes and the rollback replay -/

theorem setCaptainById_players (st : DB) (i : Nat) (c : String) :
    (setCaptainById st i c).players = st.players := rfl

theorem setCaptainById_teams (st : DB) (i : Nat) (c : String) :
    (setCaptainById st i c).teams =
      st.teams.map fun t => if t.id == i then { t with captain := c } else t := rfl

theorem mem_setCaptainById_of_ne {st : DB} {i : Nat} {c : String} {u : Team}
    (hu : u ∈ (setCaptainById st i c).teams) (hne : u.id ≠ i) : u ∈ st.teams := by
  rw [setCaptainById_teams] at hu
  obtain ⟨t, ht, he⟩ := List.mem_map.mp hu
  by_cases hti : t.id = i
  · rw [if_pos (by simpa using hti)] at he
    subst he
    exact absurd hti hne
  · rw [if_neg (by simpa using hti)] at he
    exact he ▸ ht

theorem setCaptainById_sets {st : DB} {i : Nat} {c : String} :
    ∀ u ∈ (setCaptainById st i c).teams, u.id = i → u.captain = c := by
  intro u hu hid
  rw [setCaptainById_teams] at hu
  obtain ⟨t, ht, he⟩ := List.mem_map.mp hu
  by_cases hti : t.id = i
  · rw [if_pos (by simpa using hti)] at he
    subst he
    rfl
  · rw [if_neg (by simpa using hti)] at he
    subst he
    exact absurd hid hti

theorem setCaptainById_comm (st : DB) {i j : Nat} (h : i ≠ j) (a b : String) :
    setCaptainById (setCaptainById st i a) j b =
      setCaptainById (setCaptainById st j b) i a := by
  unfold setCaptainById mapTeamsById
  simp only [List.map_map]
  congr 1
  apply List.map_congr_left
  intro t _
  by_cases h1 : t.id = i <;> by_cases h2 : t.id = j <;>
    simp_all

theorem setCaptainById_overwrite (st : DB) (i : Nat) (a b : String) :
    setCaptainById (setCaptainById st i a) i b = setCaptainById st i b := by
  unfold setCaptainById mapTeamsById
  simp only [List.map_map]
  congr 1
  apply List.map_congr_left
  intro t _
  by_cases h1 : t.id = i <;> simp [h1]

theorem setCaptainById_eq_self {st : DB} {i : Nat} {c : String}
    (h : ∀ u ∈ st.teams, u.id = i → u.captain = c) : setCaptainById st i c = st := by
  unfold setCaptainById mapTeamsById
  have : st.teams.map (fun t => if t.id == i then { t with captain := c } else t) = st.teams := by
    rw [show st.teams.map (fun t => if t.id == i then { t with captain := c } else t) =
        st.teams.map (fun t => t) from List.map_congr_left ?_, List.map_id']
    intro t ht
    by_cases h1 : t.id = i
    · have hc := h t ht h1
      rw [if_pos (by simpa using h1), ← hc]
    · rw [if_neg (by simpa using h1)]
  rw [this]

theorem rollback_temp_append (st : DB) (acc : List (Nat × String)) (p : Nat × String) :
    rollback_temp st (acc ++ [p]) = setCaptainById (rollback_temp st acc) p.1 p.2 := by
  unfold rollback_temp
  rw [List.foldl_append]
  rfl

theorem rollback_temp_setCaptainById_comm {i : Nat} (a : String) :
    ∀ (acc : List (Nat × String)) (st : DB), i ∉ acc.map Prod.fst →
      rollback_temp (setCaptainById st i a) acc =
        setCaptainById (rollback_temp st acc) i a
  | [], st, _ => rfl
  | p :: rest, st, h => by
    have hne : i ≠ p.1 := by
      intro he; exact h (by simp [he])
    have hrest : i ∉ rest.map Prod.fst := by
      intro he; exact h (by simp [he])
    show rollback_temp (setCaptainById (setCaptainById st i a) p.1 p.2) rest = _
    rw [setCaptainById_comm _ hne,
      rollback_temp_setCaptainById_comm a rest (setCaptainById st p.1 p.2) hrest]
    rfl

theorem mem_rollback_of_not_fst {i : Nat} :
    ∀ (acc : List (Nat × String)) (st : DB) {u : Team},
      i ∉ acc.map Prod.fst → u ∈ (rollback_temp st acc).teams → u.id = i → u ∈ st.teams
  | [], _, _, _, hu, _ => hu
  | p :: rest, st, u, h, hu, hid => by
    have hne : i ≠ p.1 := by
      intro he; exact h (by simp [he])
    have hrest : i ∉ rest.map Prod.fst := by
      intro he; exact h (by simp [he])
    have hu' : u ∈ (setCaptainById st p.1 p.2).teams :=
      mem_rollback_of_not_fst rest (setCaptainById st p.1 p.2) hrest hu hid
    exact mem_setCaptainById_of_ne hu' (by rw [hid]; exact hne)

theorem rollback_all_old {i : Nat} {c : String} :
    ∀ (acc : List (Nat × String)) (st : DB),
      (∀ p ∈ acc, p.2 = c) → i ∈ acc.map Prod.fst →
      ∀ u ∈ (rollback_temp st acc).teams, u.id = i → u.captain = c
  | [], _, _, hi, _, _, _ => absurd hi (by simp)
  | p :: rest, st, hall, hi, u, hu, hid => by
    by_cases hrest : i ∈ rest.map Prod.fst
    · exact rollback_all_old rest (setCaptainById st p.1 p.2)
        (fun q hq => hall q (List.mem_cons_of_mem p hq)) hrest u hu hid
    · have hpi : p.1 = i := by
        rcases List.mem_map.mp hi with ⟨q, hq, he⟩
        rcases List.mem_cons.mp hq with h | h
        · rw [h] at he; exact he
        · exact absurd (he ▸ List.mem_map_of_mem Prod.fst h) hrest
      have hu' : u ∈ (setCaptainById st p.1 p.2).teams :=
        mem_rollback_of_not_fst rest (setCaptainById st p.1 p.2) hrest hu hid
      have := setCaptainById_sets u hu' (by rw [hid, hpi])
      rw [this]
      exact hall p (List.mem_cons_self p rest)

/-! ### Lemmas about step 2 of the identity approval -/

theorem step2_snd_old (pick : List String → String) (old : String) :
    ∀ (l : List Team) (st : DB) (acc : List (Nat × String)),
      ∀ p ∈ (step2 pick old l st acc).2.1, p ∈ acc ∨ p.2 = old
  | [], _, _, _, hp => Or.inl hp
  | t :: rest, st, acc, p, hp => by
    by_cases hcap : (t.captain == old) = true
    · by_cases hemp : t.members.isEmpty = true
      · simp only [step2, hcap, hemp, if_true] at hp
        exact Or.inl hp
      · by_cases hav : (t.members.filter fun m => m != old).isEmpty = true
        · simp only [step2, hcap, hemp, hav, if_true, if_false, Bool.false_eq_true] at hp
          exact Or.inl hp
        · simp only [step2, hcap, hemp, hav, if_true, if_false, Bool.false_eq_true] at hp
          rcases step2_snd_old pick old rest _ _ p hp with h | h
          · rcases List.mem_append.mp h with h' | h'
            · exact Or.inl h'
            · right
              rcases List.mem_singleton.mp h' with rfl
              rfl
          · exact Or.inr h
    · simp only [step2, hcap, if_false, Bool.false_eq_true] at hp
      exact step2_snd_old pick old rest st acc p hp

theorem step2_rollback (pick : List String → String) (old : String) :
    ∀ (l : List Team) (st : DB) (acc : List (Nat × String)),
      (l.map Team.id).Nodup →
      (∀ t ∈ l, t.captain = old → ∀ u ∈ st.teams, u.id = t.id → u.captain = old) →
      (∀ t ∈ l, t.captain = old → t.id ∉ acc.map Prod.fst) →
      rollback_temp (step2 pick old l st acc).1 (step2 pick old l st acc).2.1 =
        rollback_temp st acc
  | [], _, _, _, _, _ => rfl
  | t :: rest, st, acc, hn, hc, hd => by
    have hn1 : t.id ∉ rest.map Team.id := (List.nodup_cons.mp (by simpa using hn)).1
    have hn' : (rest.map Team.id).Nodup := (List.nodup_cons.mp (by simpa using hn)).2
    by_cases hcap : (t.captain == old) = true
    · have hcap' : t.captain = old := by simpa using hcap
      by_cases hemp : t.members.isEmpty = true
      · simp only [step2, hcap, hemp, if_true]
      · by_cases hav : (t.members.filter fun m => m != old).isEmpty = true
        · simp only [step2, hcap, hemp, hav, if_true, if_false, Bool.false_eq_true]
        · simp only [step2, hcap, hemp, hav, if_true, if_false, Bool.false_eq_true]
          have hacc : t.id ∉ acc.map Prod.fst := hd t (List.mem_cons_self t rest) hcap'
          have hc' : ∀ t' ∈ rest, t'.captain = old →
              ∀ u ∈ (setCaptainById st t.id
                  (pick (t.members.filter fun m => m != old))).teams,
                u.id = t'.id → u.captain = old := by
            intro t' ht' hcap'' u hu hid
            have hne : t'.id ≠ t.id := by
              intro he
              exact hn1 (he ▸ List.mem_map_of_mem Team.id ht')
            have hu' : u ∈ st.teams :=
              mem_setCaptainById_of_ne hu (by rw [hid]; exact hne)
            exact hc t' (List.mem_cons_of_mem t ht') hcap'' u hu' hid
          have hd' : ∀ t' ∈ rest, t'.captain = old →
              t'.id ∉ (acc ++ [(t.id, old)]).map Prod.fst := by
            intro t' ht' hcap'' h
            rw [List.map_append] at h
            rcases List.mem_append.mp h with h' | h'
            · exact hd t' (List.mem_cons_of_mem t ht') hcap'' h'
            · have : t'.id = t.id := by simpa using h'
              exact hn1 (this ▸ List.mem_map_of_mem Team.id ht')
          rw [step2_rollback pick old rest _ _ hn' hc' hd']
          rw [show (acc ++ [(t.id, old)]) = acc ++ [((t.id : Nat), old)] from rfl,
            rollback_temp_append,
            rollback_temp_setCaptainById_comm _ acc st hacc,
            setCaptainById_overwrite]
          apply setCaptainById_eq_self
          intro u hu hid
          have hu' : u ∈ st.teams := mem_rollback_of_not_fst acc st hacc hu hid
          exact hc t (List.mem_cons_self t rest) hcap' u hu' hid
    · simp only [step2, hcap, if_false, Bool.false_eq_true]
      exact step2_rollback pick old rest st acc hn'
        (fun t' ht' h1 => hc t' (List.mem_cons_of_mem t ht') h1)
        (fun t' ht' h1 => hd t' (List.mem_cons_of_mem t ht') h1)

theorem relatedTeams_ids_nodup {st : DB} (hid : teamIdsNodup st) (old : String) :
    ((relatedTeams st old).map Team.id).Nodup :=
  hid.sublist (List.Sublist.map Team.id (List.filter_sublist st.teams))

theorem teamIdsNodup_unique {st : DB} (hid : teamIdsNodup st) {t u : Team}
    (ht : t ∈ st.teams) (hu : u ∈ st.teams) (he : u.id = t.id) : u = t :=
  List.inj_on_of_nodup_map hid hu ht he

theorem step2_related_restores {st : DB} (hid : teamIdsNodup st)
    (pick : List String → String) (old : String) :
    rollback_temp (step2 pick old (relatedTeams st old) st []).1
        (step2 pick old (relatedTeams st old) st []).2.1 = st := by
  apply step2_rollback
  · exact relatedTeams_ids_nodup hid old
  · intro t ht hcap u hu hidq
    have ht' : t ∈ st.teams := List.mem_of_mem_filter ht
    rw [teamIdsNodup_unique hid ht' hu hidq]
    exact hcap
  · intro t _ _ h
    simp at h

/-! ### C3: saga rollback of the identity approval -/

theorem approve_mutateFails_eq (pick : List String → String) (pf : Option Nat)
    (st : DB) (req : ChangeRequest) :
    approve_change_request pick true pf st req =
      (false, rollback_temp (step2 pick req.game_id (relatedTeams st req.game_id) st []).1
          (step2 pick req.game_id (relatedTeams st req.game_id) st []).2.1) := by
  unfold approve_change_request
  rcases hS : step2 pick req.game_id (relatedTeams st req.game_id) st [] with ⟨st2, changes, ok⟩
  simp only [hS]
  cases ok <;> simp

theorem approve_propFails_eq (pick : List String → String) (k : Nat)
    (st : DB) (req : ChangeRequest)
    (h : (approve_change_request pick false (some k) st req).1 = false) :
    ∃ base : DB, approve_change_request pick false (some k) st req =
      (false, rollback_temp base
          (step2 pick req.game_id (relatedTeams st req.game_id) st []).2.1) := by
  unfold approve_change_request at h ⊢
  rcases hS : step2 pick req.game_id (relatedTeams st req.game_id) st [] with ⟨st2, changes, ok⟩
  simp only [hS] at h ⊢
  cases ok
  · exact ⟨st2, by simp⟩
  · simp only [Bool.not_true, Bool.false_eq_true, if_false] at h ⊢
    rcases h4 : step4 req.game_id (effective_new_id req)
        (relatedTeams st req.game_id) (some k)
        (mutate_player st2 req.game_id (effective_new_id req) req.new_class) with ⟨st4, s⟩
    rw [h4] at h
    cases s
    · exact ⟨st4, rfl⟩
    · exact Bool.noConfusion (show (true : Bool) = false from h)

/-- Claim C3: the identity-approval saga restores captains on failure.
First conjunct — if the identity-mutation step raises, every recorded
`(team_id, old_captain)` write is replayed and the returned state is the
original one (captains included), the operation reporting failure.
Second conjunct — if the propagation step raises after any number of
writes, then for every recorded `(team_id, old_captain)` pair, every team
row with that id in the returned state carries the recorded old captain. -/
theorem identity_approve_rollback :
    (∀ (pick : List String → String) (pf : Option Nat) (st : DB) (req : ChangeRequest),
      teamIdsNodup st → approve_change_request pick true pf st req = (false, st)) ∧
    (∀ (pick : List String → String) (k : Nat) (st : DB) (req : ChangeRequest),
      (approve_change_request pick false (some k) st req).1 = false →
      ∀ p ∈ (step2 pick req.game_id (relatedTeams st req.game_id) st []).2.1,
        ∀ u ∈ (approve_change_request pick false (some k) st req).2.teams,
          u.id = p.1 → u.captain = p.2) := by
  constructor
  · intro pick pf st req hid
    rw [approve_mutateFails_eq, step2_related_restores hid]
  · intro pick k st req hfail p hp u hu hidq
    obtain ⟨base, hb⟩ := approve_propFails_eq pick k st req hfail
    rw [hb] at hu
    have hall : ∀ q ∈ (step2 pick req.game_id (relatedTeams st req.game_id) st []).2.1,
        q.2 = req.game_id := by
      intro q hq
      rcases step2_snd_old pick req.game_id (relatedTeams st req.game_id) st [] q hq with h | h
      · exact absurd h (List.not_mem_nil q)
      · exact h
    have hp2 : p.2 = req.game_id := hall p hp
    rw [hp2]
    exact rollback_all_old _ base hall
      (List.mem_map_of_mem Prod.fst hp) u hu hidq

/-- Witness for C3: the spec's example — `A` captains `(A, [B])`, the
identity mutation is forced to fail, and the returned state has
`team.captain = A` again (here: the whole original state). -/
theorem identity_approve_rollback_wit :
    approve_change_request (fun l => l.headD "") true none
        ⟨[⟨"A", "c", true⟩, ⟨"B", "c", true⟩], [⟨1, "A", ["B"]⟩]⟩ ⟨"A", "A2", ""⟩ =
      (false, ⟨[⟨"A", "c", true⟩, ⟨"B", "c", true⟩], [⟨1, "A", ["B"]⟩]⟩) :=
  identity_approve_rollback.1 (fun l => l.headD "") none
    ⟨[⟨"A", "c", true⟩, ⟨"B", "c", true⟩], [⟨1, "A", ["B"]⟩]⟩ ⟨"A", "A2", ""⟩ (by decide)

/-! ### Pointwise characterization of the step-2 and step-4 loops -/

theorem tempUpd_id (pick : List String → String) (old : String) (t u : Team) :
    (tempUpd pick old t u).id = u.id := by
  unfold tempUpd; split <;> rfl

theorem tempUpd_not_id {t u : Team} (pick : List String → String) (old : String)
    (h : u.id ≠ t.id) : tempUpd pick old t u = u := by
  unfold tempUpd
  rw [if_neg (by simpa using h)]

theorem propUpd_id (old new : String) (t u : Team) :
    (propUpd old new t u).id = u.id := by
  unfold propUpd
  split
  · split <;> rfl
  · rfl

theorem propUpd_not_id {t u : Team} (old new : String) (h : u.id ≠ t.id) :
    propUpd old new t u = u := by
  unfold propUpd
  split
  · rw [if_neg (by simpa using h)]
  · rfl

theorem phiFun_cons (pick : List String → String) (old : String) (t : Team)
    (rest : List Team) (u : Team) :
    phiFun pick old (t :: rest) u =
      phiFun pick old rest (if t.captain == old then tempUpd pick old t u else u) := rfl

theorem psiFun_cons (old new : String) (t : Team) (rest : List Team) (u : Team) :
    psiFun old new (t :: rest) u = psiFun old new rest (propUpd old new t u) := rfl

theorem phiFun_id (pick : List String → String) (old : String) :
    ∀ (l : List Team) (u : Team), (phiFun pick old l u).id = u.id
  | [], _ => rfl
  | t :: rest, u => by
    rw [phiFun_cons, phiFun_id pick old rest]
    by_cases hcap : (t.captain == old) = true
    · rw [if_pos hcap, tempUpd_id]
    · rw [if_neg hcap]

theorem psiFun_id (old new : String) :
    ∀ (l : List Team) (u : Team), (psiFun old new l u).id = u.id
  | [], _ => rfl
  | t :: rest, u => by
    rw [psiFun_cons, psiFun_id old new rest, propUpd_id]

theorem phiFun_not_mem (pick : List String → String) (old : String) :
    ∀ (l : List Team) (u : Team), u.id ∉ l.map Team.id → phiFun pick old l u = u
  | [], _, _ => rfl
  | t :: rest, u, h => by
    have h1 : u.id ≠ t.id := by
      intro he; exact h (by simp [he])
    have h2 : u.id ∉ rest.map Team.id := by
      intro he; exact h (by simp [he])
    rw [phiFun_cons]
    by_cases hcap : (t.captain == old) = true
    · rw [if_pos hcap, tempUpd_not_id pick old h1]
      exact phiFun_not_mem pick old rest u h2
    · rw [if_neg hcap]
      exact phiFun_not_mem pick old rest u h2

theorem psiFun_not_mem (old new : String) :
    ∀ (l : List Team) (u : Team), u.id ∉ l.map Team.id → psiFun old new l u = u
  | [], _, _ => rfl
  | t :: rest, u, h => by
    have h1 : u.id ≠ t.id := by
      intro he; exact h (by simp [he])
    have h2 : u.id ∉ rest.map Team.id := by
      intro he; exact h (by simp [he])
    rw [psiFun_cons, propUpd_not_id old new h1]
    exact psiFun_not_mem old new rest u h2

theorem step2_ok_eq (pick : List String → String) (old : String) :
    ∀ (l : List Team) (st : DB) (acc : List (Nat × String)),
      (∀ t ∈ l, t.captain = old → (t.members.filter fun m => m != old) ≠ []) →
      step2 pick old l st acc =
        (⟨st.players, st.teams.map (phiFun pick old l)⟩,
         acc ++ (l.filter fun t => t.captain == old).map (fun t => (t.id, old)), true)
  | [], st, acc, _ => by
    show (st, acc, true) = _
    have h1 : st.teams.map (phiFun pick old []) = st.teams := by
      rw [show st.teams.map (phiFun pick old []) = st.teams.map (fun u => u) from
        List.map_congr_left (fun u _ => rfl), List.map_id']
    rw [List.filter_nil, List.map_nil, List.append_nil, h1]
  | t :: rest, st, acc, hok => by
    by_cases hcap : (t.captain == old) = true
    · have hcap' : t.captain = old := by simpa using hcap
      have hav : (t.members.filter fun m => m != old) ≠ [] :=
        hok t (List.mem_cons_self t rest) hcap'
      have hemp : t.members.isEmpty = false := by
        rcases List.exists_mem_of_ne_nil _ hav with ⟨x, hx⟩
        have : t.members ≠ [] := List.ne_nil_of_mem (List.mem_of_mem_filter hx)
        simpa [List.isEmpty_iff] using this
      have havF : (t.members.filter fun m => m != old).isEmpty = false := by
        simpa [List.isEmpty_iff] using hav
      simp only [step2, hcap, hemp, havF, if_true, if_false, Bool.false_eq_true,
        Bool.true_eq_false]
      rw [step2_ok_eq pick old rest _ _
        (fun t' ht' h1 => hok t' (List.mem_cons_of_mem t ht') h1)]
      refine congrArg₂ Prod.mk ?_ (congrArg₂ Prod.mk ?_ rfl)
      · show (⟨st.players, (st.teams.map fun u =>
          if u.id == t.id then
            { u with captain := pick (t.members.filter fun m => m != old) }
          else u).map (phiFun pick old rest)⟩ : DB) = _
        rw [List.map_map]
        refine congrArg (fun x => DB.mk st.players x) (List.map_congr_left ?_)
        intro u _
        show phiFun pick old rest (tempUpd pick old t u) = phiFun pick old (t :: rest) u
        rw [phiFun_cons, if_pos hcap]
      · simp [List.filter_cons, hcap]
    · simp only [step2, hcap, if_false, Bool.false_eq_true]
      rw [step2_ok_eq pick old rest st acc
        (fun t' ht' h1 => hok t' (List.mem_cons_of_mem t ht') h1)]
      refine congrArg₂ Prod.mk ?_ (congrArg₂ Prod.mk ?_ rfl)
      · refine congrArg (fun x => DB.mk st.players x) (List.map_congr_left ?_)
        intro u _
        show phiFun pick old rest u = phiFun pick old (t :: rest) u
        rw [phiFun_cons, if_neg hcap]
      · simp [List.filter_cons, hcap]

theorem propagate_team_eq (old new : String) (st : DB) (t : Team) :
    propagate_team old new st t = ⟨st.players, st.teams.map (propUpd old new t)⟩ := by
  unfold propagate_team
  by_cases hc : (t.captain == old || t.members.contains old) = true
  · rw [if_pos hc]
    unfold mapTeamsById
    refine congrArg (fun x => DB.mk st.players x) (List.map_congr_left ?_)
    intro u _
    unfold propUpd
    rw [if_pos hc]
  · rw [if_neg hc]
    have : st.teams.map (propUpd old new t) = st.teams := by
      rw [show st.teams.map (propUpd old new t) = st.teams.map (fun u => u) from
        List.map_congr_left ?_, List.map_id']
      intro u _
      unfold propUpd
      rw [if_neg hc]
    rw [this]

theorem step4_none_eq (old new : String) :
    ∀ (l : List Team) (st : DB),
      step4 old new l none st = (⟨st.players, st.teams.map (psiFun old new l)⟩, true)
  | [], st => by
    show (st, true) = _
    have h1 : st.teams.map (psiFun old new []) = st.teams := by
      rw [show st.teams.map (psiFun old new []) = st.teams.map (fun u => u) from
        List.map_congr_left (fun u _ => rfl), List.map_id']
    rw [h1]
  | t :: rest, st => by
    show step4 old new rest none (propagate_team old new st t) = _
    rw [propagate_team_eq, step4_none_eq old new rest]
    refine congrArg₂ Prod.mk ?_ rfl
    rw [List.map_map]
    refine congrArg (fun x => DB.mk st.players x) (List.map_congr_left ?_)
    intro u _
    show psiFun old new rest (propUpd old new t u) = psiFun old new (t :: rest) u
    rw [psiFun_cons]

theorem map_replace_self (old : String) (l : List String) :
    (l.map fun m => if m == old then old else m) = l := by
  rw [show (l.map fun m => if m == old then old else m) = l.map (fun m => m) from
    List.map_congr_left ?_, List.map_id']
  intro m _
  by_cases h : m = old
  · rw [if_pos (by simpa using h), h]
  · rw [if_neg (by simpa using h)]

theorem map_replace_self_eq (old : String) (l : List String) :
    (l.map fun m => if m = old then old else m) = l := by
  rw [show (l.map fun m => if m = old then old else m) = l.map (fun m => m) from
    List.map_congr_left ?_, List.map_id']
  intro m _
  by_cases h : m = old
  · rw [if_pos h, h]
  · rw [if_neg h]

theorem psi_phi_restore (pick : List String → String) (old : String) :
    ∀ (l : List Team) (u : Team),
      (l.map Team.id).Nodup → (∀ t ∈ l, u.id = t.id → u = t) →
      psiFun old old l (phiFun pick old l u) = u
  | [], _, _, _ => rfl
  | t :: rest, u, hn, hm => by
    obtain ⟨tid, tcap, tmem⟩ := t
    have hn1 : tid ∉ rest.map Team.id := (List.nodup_cons.mp (by simpa using hn)).1
    have hn' : (rest.map Team.id).Nodup := (List.nodup_cons.mp (by simpa using hn)).2
    by_cases hid : u.id = tid
    · have hu : u = ⟨tid, tcap, tmem⟩ :=
        hm ⟨tid, tcap, tmem⟩ (List.mem_cons_self _ rest) hid
      subst hu
      by_cases hcap : (tcap == old) = true
      · have hcap' : tcap = old := by simpa using hcap
        rw [phiFun_cons, if_pos hcap,
          phiFun_not_mem pick old rest
            (tempUpd pick old ⟨tid, tcap, tmem⟩ ⟨tid, tcap, tmem⟩)
            (by rw [tempUpd_id]; exact hn1),
          psiFun_cons]
        have hprop : propUpd old old ⟨tid, tcap, tmem⟩
            (tempUpd pick old ⟨tid, tcap, tmem⟩ ⟨tid, tcap, tmem⟩) = ⟨tid, tcap, tmem⟩ := by
          unfold tempUpd propUpd
          simp [hcap', map_replace_self, map_replace_self_eq]
        rw [hprop]
        exact psiFun_not_mem old old rest _ hn1
      · rw [phiFun_cons, if_neg hcap]
        rw [phiFun_not_mem pick old rest ⟨tid, tcap, tmem⟩ hn1]
        rw [psiFun_cons]
        have hprop : propUpd old old ⟨tid, tcap, tmem⟩ ⟨tid, tcap, tmem⟩ =
            ⟨tid, tcap, tmem⟩ := by
          unfold propUpd
          by_cases hctn : (tmem.contains old) = true
          · simp [hcap, hctn, map_replace_self, map_replace_self_eq]
          · simp [hcap, hctn, map_replace_self, map_replace_self_eq]
        rw [hprop]
        exact psiFun_not_mem old old rest _ hn1
    · rw [phiFun_cons]
      have hskip : (if (tcap == old) = true
          then tempUpd pick old ⟨tid, tcap, tmem⟩ u else u) = u := by
        split
        · exact tempUpd_not_id pick old hid
        · rfl
      rw [hskip, psiFun_cons, propUpd_not_id old old (by rw [phiFun_id]; exact hid)]
      exact psi_phi_restore pick old rest u hn'
        (fun t' ht' h' => hm t' (List.mem_cons_of_mem _ ht') h')

theorem mutate_player_teams (st : DB) (old new cls : String) :
    (mutate_player st old new cls).teams = st.teams := by
  unfold mutate_player
  split <;> rfl

/-! ### C10: identity approval with an empty proposed id -/

/-- Claim C10: when `new_game_id` is empty the effective new id falls back
to the old one; a successful approval leaves every player's `game_id` and
the whole `teams` table unchanged (the captain and member rewrites are
identity substitutions), updating only the player's class and only when
`new_class` is non-empty. -/
theorem approve_identity_empty_new_id (pick : List String → String) (st : DB)
    (req : ChangeRequest)
    (hid : teamIdsNodup st)
    (hnew : req.new_game_id = "")
    (hok : ∀ t ∈ st.teams, t.captain = req.game_id →
      (t.members.filter fun m => m != req.game_id) ≠ []) :
    (approve_change_request pick false none st req).1 = true ∧
    (approve_change_request pick false none st req).2.teams = st.teams ∧
    (approve_change_request pick false none st req).2.players =
      (if req.new_class = "" then st.players
       else st.players.map fun p =>
         if p.game_id = req.game_id then { p with cls := req.new_class } else p) := by
  have hnewid : effective_new_id req = req.game_id := by
    unfold effective_new_id
    rw [hnew]
    simp
  have hok' : ∀ t ∈ relatedTeams st req.game_id, t.captain = req.game_id →
      (t.members.filter fun m => m != req.game_id) ≠ [] :=
    fun t ht => hok t (List.mem_of_mem_filter ht)
  have hS := step2_ok_eq pick req.game_id (relatedTeams st req.game_id) st [] hok'
  have hrel_nd := relatedTeams_ids_nodup hid req.game_id
  have hteams_restore :
      (st.teams.map (phiFun pick req.game_id (relatedTeams st req.game_id))).map
        (psiFun req.game_id req.game_id (relatedTeams st req.game_id)) = st.teams := by
    rw [List.map_map]
    rw [show (st.teams.map
        (psiFun req.game_id req.game_id (relatedTeams st req.game_id) ∘
          phiFun pick req.game_id (relatedTeams st req.game_id))) =
        st.teams.map (fun u => u) from List.map_congr_left ?_, List.map_id']
    intro u hu
    apply psi_phi_restore pick req.game_id _ u hrel_nd
    intro t' ht' h'
    exact teamIdsNodup_unique hid (List.mem_of_mem_filter ht') hu h'
  have hmain : approve_change_request pick false none st req =
      (true, ⟨(mutate_player
          ⟨st.players, st.teams.map (phiFun pick req.game_id (relatedTeams st req.game_id))⟩
          req.game_id req.game_id req.new_class).players, st.teams⟩) := by
    unfold approve_change_request
    simp only [hS, hnewid, Bool.not_true, Bool.false_eq_true, if_false]
    rw [step4_none_eq]
    rw [mutate_player_teams, hteams_restore]
  refine ⟨by rw [hmain], by rw [hmain], ?_⟩
  rw [hmain]
  show (mutate_player
      ⟨st.players, st.teams.map (phiFun pick req.game_id (relatedTeams st req.game_id))⟩
      req.game_id req.game_id req.new_class).players = _
  unfold mutate_player
  by_cases hcls : req.new_class = ""
  · rw [if_pos (by simp [hcls]), if_pos hcls]
  · rw [if_neg (by simp [hcls]), if_neg hcls]
    show st.players.map _ = st.players.map _
    apply List.map_congr_left
    intro p _
    by_cases hpg : p.game_id = req.game_id
    · simp [hpg, hcls]
    · rw [if_neg (by simpa using hpg), if_neg hpg]

/-- Witness for C10: a request with empty `new_game_id` and class `x` on
`A` captaining `(A, [B])` — approval succeeds, the team is unchanged, and
only `A`'s class changes. -/
theorem approve_identity_empty_new_id_wit :
    (approve_change_request (fun l => l.headD "") false none
        ⟨[⟨"A", "c", true⟩, ⟨"B", "c", true⟩], [⟨1, "A", ["B"]⟩]⟩ ⟨"A", "", "x"⟩).1 = true ∧
    (approve_change_request (fun l => l.headD "") false none
        ⟨[⟨"A", "c", true⟩, ⟨"B", "c", true⟩], [⟨1, "A", ["B"]⟩]⟩ ⟨"A", "", "x"⟩).2 =
      ⟨[⟨"A", "x", true⟩, ⟨"B", "c", true⟩], [⟨1, "A", ["B"]⟩]⟩ := by
  have h := approve_identity_empty_new_id (fun l => l.headD "")
    ⟨[⟨"A", "c", true⟩, ⟨"B", "c", true⟩], [⟨1, "A", ["B"]⟩]⟩ ⟨"A", "", "x"⟩
    (by decide) rfl (by decide)
  refine ⟨h.1, ?_⟩
  have h2 := h.2.1
  have h3 := h.2.2
  rcases hE : (approve_change_request (fun l => l.headD "") false none
      ⟨[⟨"A", "c", true⟩, ⟨"B", "c", true⟩], [⟨1, "A", ["B"]⟩]⟩ ⟨"A", "", "x"⟩).2 with ⟨ps, ts⟩
  rw [hE] at h2 h3
  simp only at h2 h3
  rw [h2, h3]
  rfl

/-! ### Preservation of the team invariant by each operation -/

theorem foldl_selection_teams (b : Bool) :
    ∀ (ms : List String) (s : DB),
      (ms.foldl (fun s m => update_player_selection_status s m b) s).teams = s.teams
  | [], _ => rfl
  | m :: rest, s => by
    show (rest.foldl (fun s m => update_player_selection_status s m b)
      (update_player_selection_status s m b)).teams = s.teams
    rw [foldl_selection_teams b rest]
    rfl

theorem nodup_map_replace {old new : String} :
    ∀ {l : List String}, l.Nodup → new ∉ l →
      (l.map fun m => if m == old then new else m).Nodup
  | [], _, _ => List.nodup_nil
  | m :: rest, hnd, hnew => by
    have h1 : m ∉ rest := (List.nodup_cons.mp hnd).1
    have h2 : rest.Nodup := (List.nodup_cons.mp hnd).2
    have h3 : new ≠ m := fun he => hnew (he ▸ List.mem_cons_self m rest)
    have h4 : new ∉ rest := fun he => hnew (List.mem_cons_of_mem m he)
    rw [List.map_cons, List.nodup_cons]
    refine ⟨?_, nodup_map_replace h2 h4⟩
    intro hmem
    obtain ⟨x, hx, he⟩ := List.mem_map.mp hmem
    by_cases hxo : x = old
    · rw [if_pos (by simpa using hxo)] at he
      by_cases hm : m = old
      · exact h1 ((hxo.trans hm.symm) ▸ hx)
      · rw [if_neg (by simpa using hm)] at he
        exact h3 he
    · rw [if_neg (by simpa using hxo)] at he
      by_cases hm : m = old
      · rw [if_pos (by simpa using hm)] at he
        exact h4 (he ▸ hx)
      · rw [if_neg (by simpa using hm)] at he
        exact h1 (he ▸ hx)

theorem not_mem_map_replace {old new c : String} {l : List String}
    (hc1 : c ≠ new) (hc2 : c ∉ l) :
    c ∉ l.map fun m => if m == old then new else m := by
  intro hmem
  obtain ⟨x, hx, he⟩ := List.mem_map.mp hmem
  by_cases hxo : x = old
  · rw [if_pos (by simpa using hxo)] at he
    exact hc1 he.symm
  · rw [if_neg (by simpa using hxo)] at he
    exact hc2 (he ▸ hx)

theorem step2_eq_of_ok (pick : List String → String) (old : String) :
    ∀ (l : List Team) (st : DB) (acc : List (Nat × String)) {st2 : DB}
      {changes : List (Nat × String)},
      step2 pick old l st acc = (st2, changes, true) →
      st2 = ⟨st.players, st.teams.map (phiFun pick old l)⟩
  | [], st, acc, st2, changes, h => by
    have h1 : st2 = st := (congrArg Prod.fst h).symm
    have h2 : st.teams.map (phiFun pick old []) = st.teams := by
      rw [show st.teams.map (phiFun pick old []) = st.teams.map (fun u => u) from
        List.map_congr_left (fun u _ => rfl), List.map_id']
    rw [h1, h2]
  | t :: rest, st, acc, st2, changes, h => by
    by_cases hcap : (t.captain == old) = true
    · by_cases hemp : t.members.isEmpty = true
      · simp only [step2, hcap, hemp, if_true] at h
        exact absurd (congrArg (fun x => x.2.2) h) (by simp)
      · by_cases hav : (t.members.filter fun m => m != old).isEmpty = true
        · simp only [step2, hcap, hemp, hav, if_true, if_false, Bool.false_eq_true] at h
          exact absurd (congrArg (fun x => x.2.2) h) (by simp)
        · simp only [step2, hcap, hemp, hav, if_true, if_false, Bool.false_eq_true] at h
          have := step2_eq_of_ok pick old rest _ _ h
          rw [this]
          show (⟨st.players, (st.teams.map fun u =>
              if u.id == t.id then
                { u with captain := pick (t.members.filter fun m => m != old) }
              else u).map (phiFun pick old rest)⟩ : DB) = _
          rw [List.map_map]
          refine congrArg (fun x => DB.mk st.players x) (List.map_congr_left ?_)
          intro u _
          show phiFun pick old rest (tempUpd pick old t u) = phiFun pick old (t :: rest) u
          rw [phiFun_cons, if_pos hcap]
    · simp only [step2, hcap, if_false, Bool.false_eq_true] at h
      have := step2_eq_of_ok pick old rest _ _ h
      rw [this]
      refine congrArg (fun x => DB.mk st.players x) (List.map_congr_left ?_)
      intro u _
      show phiFun pick old rest u = phiFun pick old (t :: rest) u
      rw [phiFun_cons, if_neg hcap]

theorem create_preserves_inv {st : DB} {c : String} {ms : List String} {st' : DB}
    (hinv : dbTeamsInv st) (hnd : ms.Nodup)
    (h : create_team_in_db st c ms = some st') : dbTeamsInv st' := by
  unfold create_team_in_db at h
  by_cases h1 : (ms.filter fun m => m != c).length + 1 > MAX_TEAM_SIZE
  · rw [if_pos h1] at h
    cases h
  · rw [if_neg h1] at h
    by_cases h2 : (ms.filter fun m => m != c).length + 1 < MIN_TEAM_SIZE
    · rw [if_pos h2] at h
      cases h
    · rw [if_neg h2] at h
      have hst : st'.teams = st.teams ++
          [⟨next_team_id st, c, ms.filter fun m => m != c⟩] := by
        have := congrArg DB.teams (Option.some.inj h)
        rw [← this, foldl_selection_teams]
        rfl
      intro t ht
      rw [hst] at ht
      rcases List.mem_append.mp ht with h' | h'
      · exact hinv t h'
      · rcases List.mem_singleton.mp h' with rfl
        constructor
        · exact hnd.filter _
        · intro hc
          have := List.of_mem_filter hc
          simp at this

theorem delete_preserves_inv {st : DB} (tid : Nat) (ms : List String)
    (hinv : dbTeamsInv st) : dbTeamsInv (delete_team_from_db st tid ms) := by
  intro t ht
  unfold delete_team_from_db at ht
  simp only at ht
  have : t ∈ (ms.foldl (fun s m => update_player_selection_status s m false) st).teams :=
    List.mem_of_mem_filter ht
  rw [foldl_selection_teams] at this
  exact hinv t this

theorem update_members_preserves_inv {st : DB} {tid : Nat} {ms : List String} {st' : DB}
    (hinv : dbTeamsInv st)
    (hcap : ∀ t ∈ st.teams, t.id = tid → t.captain ∉ ms)
    (h : update_team_members st tid ms = some st') : dbTeamsInv st' := by
  unfold update_team_members at h
  by_cases hnd : ms.Nodup
  · rw [if_pos hnd] at h
    rw [← Option.some.inj h]
    intro t ht
    rw [mapTeamsById_teams] at ht
    obtain ⟨u, hu, he⟩ := List.mem_map.mp ht
    by_cases hui : u.id = tid
    · rw [if_pos (by simpa using hui)] at he
      rw [← he]
      exact ⟨hnd, hcap u hu hui⟩
    · rw [if_neg (by simpa using hui)] at he
      rw [← he]
      exact hinv u hu
  · rw [if_neg hnd] at h
    cases h

theorem setCaptain_preserves_inv {st : DB} {tid : Nat} {nc : String} {tm : Team} {st' : DB}
    (hinv : dbTeamsInv st)
    (hfind : st.teams.find? (fun t => t.id == tid) = some tm)
    (hmem : nc ∈ tm.members)
    (h : update_team_captain st tid nc = some st') : dbTeamsInv st' := by
  have htm : tm ∈ st.teams := List.mem_of_find?_eq_some hfind
  have tminv := hinv tm htm
  unfold update_team_captain at h
  rw [hfind] at h
  simp only [contains_eq_true_of_mem hmem, Bool.not_true, Bool.false_and,
    Bool.false_eq_true, if_false] at h
  rw [← Option.some.inj h]
  intro t ht
  rw [mapTeamsById_teams] at ht
  obtain ⟨u, hu, he⟩ := List.mem_map.mp ht
  by_cases hui : u.id = tid
  · rw [if_pos (by simpa using hui)] at he
    rw [← he]
    constructor
    · rw [List.nodup_append]
      refine ⟨tminv.1.filter _, List.nodup_singleton _, ?_⟩
      intro a ha hb
      rcases List.mem_singleton.mp hb with rfl
      exact tminv.2 (List.mem_of_mem_filter ha)
    · intro hc
      rcases List.mem_append.mp hc with h' | h'
      · have := List.of_mem_filter h'
        simp at this
      · rcases List.mem_singleton.mp h' with h''
        exact tminv.2 (h'' ▸ hmem)
  · rw [if_neg (by simpa using hui)] at he
    rw [← he]
    exact hinv u hu

theorem removeMember_preserves_inv {st : DB} {tid : Nat} {m : String} {st' : DB}
    (hinv : dbTeamsInv st) (hid : teamIdsNodup st)
    (h : remove_member_from_team st tid m = some st') : dbTeamsInv st' := by
  unfold remove_member_from_team at h
  rcases hf : st.teams.find? (fun t => t.id == tid) with _ | tm
  · rw [hf] at h
    cases h
  · rw [hf] at h
    have htm : tm ∈ st.teams := List.mem_of_find?_eq_some hf
    have htmid : tm.id = tid := by simpa using List.find?_some hf
    by_cases hctn : (tm.members.contains m) = true
    · simp only [hctn, Bool.not_true, Bool.false_eq_true, if_false] at h
      rcases hm2 : update_team_members st tid (tm.members.filter fun x => x != m)
        with _ | s1
      · rw [hm2] at h
        cases h
      · rw [hm2] at h
        have hs1 : dbTeamsInv s1 := by
          refine update_members_preserves_inv hinv ?_ hm2
          intro t ht htid
          have : t = tm := teamIdsNodup_unique hid htm ht (htid.trans htmid.symm)
          rw [this]
          intro hc
          exact (hinv tm htm).2 (List.mem_of_mem_filter hc)
        have : st' = update_player_selection_status s1 m false :=
          (Option.some.inj (by simpa using h)).symm
        rw [this]
        intro t ht
        rw [update_selection_teams] at ht
        exact hs1 t ht
    · have hctn' : tm.members.contains m = false := by
        simpa using hctn
      simp only [hctn', Bool.not_false, if_true] at h
      cases h

theorem approve_team_preserves_inv {st : DB} {req : TeamChangeRequest} {st' : DB}
    (hinv : dbTeamsInv st) (hid : teamIdsNodup st)
    (hcc : ∀ tm p, find_team st req.team_id = some tm →
      req.request_type = "change_captain" → req.proposed_captain = some p →
      p ∈ tm.members)
    (hadd : ∀ tm a, find_team st req.team_id = some tm →
      req.request_type = "add_member" → req.member_to_add = some a →
      a ∉ tm.members ∧ a ≠ tm.captain)
    (h : approve_team_change_request st req = some st') : dbTeamsInv st' := by
  unfold approve_team_change_request at h
  rcases hf : find_team st req.team_id with _ | tm
  · rw [hf] at h
    cases h
  · rw [hf] at h
    have htm : tm ∈ st.teams := List.mem_of_find?_eq_some hf
    have tminv := hinv tm htm
    by_cases hty1 : (req.request_type == "remove_member") = true
    · simp only [hty1, if_true] at h
      rcases hmr : req.member_to_remove with _ | target
      · rw [hmr] at h
        cases h
      · rw [hmr] at h
        by_cases htc : (target == tm.captain) = true
        · simp only [htc, if_true] at h
          rcases hmem : tm.members with _ | ⟨m0, rest⟩
          · rw [hmem] at h
            cases h
          · rw [hmem] at h
            rw [← Option.some.inj h]
            intro t ht
            rw [update_selection_teams, mapTeamsById_teams] at ht
            obtain ⟨u, hu, he⟩ := List.mem_map.mp ht
            by_cases hui : u.id = tm.id
            · rw [if_pos (by simpa using hui)] at he
              rw [← he]
              constructor
              · exact List.Nodup.filter (fun m => m != m0) (hmem ▸ tminv.1)
              · intro hc
                have := List.of_mem_filter hc
                simp at this
            · rw [if_neg (by simpa using hui)] at he
              rw [← he]
              exact hinv u hu
        · have htc' : (target == tm.captain) = false := by simpa using htc
          simp only [htc', Bool.false_eq_true, if_false] at h
          rw [← Option.some.inj h]
          intro t ht
          rw [update_selection_teams, mapTeamsById_teams] at ht
          obtain ⟨u, hu, he⟩ := List.mem_map.mp ht
          by_cases hui : u.id = tm.id
          · rw [if_pos (by simpa using hui)] at he
            rw [← he]
            have hutm : u = tm := teamIdsNodup_unique hid htm hu hui
            constructor
            · exact tminv.1.filter _
            · intro hc
              have h1 : u.captain ∈ tm.members := List.mem_of_mem_filter hc
              exact tminv.2 (hutm ▸ h1)
          · rw [if_neg (by simpa using hui)] at he
            rw [← he]
            exact hinv u hu
    · have hty1' : (req.request_type == "remove_member") = false := by simpa using hty1
      simp only [hty1', Bool.false_eq_true, if_false] at h
      by_cases hty2 : (req.request_type == "change_captain") = true
      · simp only [hty2, if_true] at h
        rcases hp : req.proposed_captain with _ | p
        · rw [hp] at h
          cases h
        · rw [hp] at h
          have hpm : p ∈ tm.members := hcc tm p hf (by simpa using hty2) hp
          rw [← Option.some.inj h]
          intro t ht
          rw [mapTeamsById_teams] at ht
          obtain ⟨u, hu, he⟩ := List.mem_map.mp ht
          by_cases hui : u.id = tm.id
          · rw [if_pos (by simpa using hui)] at he
            rw [← he]
            constructor
            · rw [List.nodup_append]
              refine ⟨tminv.1.filter _, List.nodup_singleton _, ?_⟩
              intro a ha hb
              rcases List.mem_singleton.mp hb with rfl
              exact tminv.2 (List.mem_of_mem_filter ha)
            · intro hc
              rcases List.mem_append.mp hc with h' | h'
              · have := List.of_mem_filter h'
                simp at this
              · rcases List.mem_singleton.mp h' with h''
                exact tminv.2 (h'' ▸ hpm)
          · rw [if_neg (by simpa using hui)] at he
            rw [← he]
            exact hinv u hu
      · have hty2' : (req.request_type == "change_captain") = false := by simpa using hty2
        simp only [hty2', Bool.false_eq_true, if_false] at h
        by_cases hty3 : (req.request_type == "add_member") = true
        · simp only [hty3, if_true] at h
          rcases ha : req.member_to_add with _ | a
          · rw [ha] at h
            cases h
          · rw [ha] at h
            rcases hpl : find_player st a with _ | pl
            · simp only [hpl] at h
              cases h
            · simp only [hpl] at h
              have haddm := hadd tm a hf (by simpa using hty3) ha
              by_cases hsel : pl.is_selected = true
              · simp only [hsel, if_true] at h
                cases h
              · have hsel' : pl.is_selected = false := by simpa using hsel
                simp only [hsel', Bool.false_eq_true, if_false] at h
                rw [← Option.some.inj h]
                intro t ht
                rw [update_selection_teams, mapTeamsById_teams] at ht
                obtain ⟨u, hu, he⟩ := List.mem_map.mp ht
                by_cases hui : u.id = tm.id
                · rw [if_pos (by simpa using hui)] at he
                  rw [← he]
                  have hutm : u = tm := teamIdsNodup_unique hid htm hu hui
                  constructor
                  · rw [List.nodup_append]
                    refine ⟨tminv.1, List.nodup_singleton _, ?_⟩
                    intro x hx hb
                    rcases List.mem_singleton.mp hb with rfl
                    exact haddm.1 hx
                  · intro hc
                    rcases List.mem_append.mp hc with h' | h'
                    · exact tminv.2 (hutm ▸ h')
                    · rcases List.mem_singleton.mp h' with h''
                      exact haddm.2 ((hutm ▸ h'') ▸ rfl)
                · rw [if_neg (by simpa using hui)] at he
                  rw [← he]
                  exact hinv u hu
        · have hty3' : (req.request_type == "add_member") = false := by simpa using hty3
          simp only [hty3', Bool.false_eq_true, if_false] at h
          rw [← Option.some.inj h]
          exact hinv

theorem psi_phi_inv_fresh (pick : List String → String) (old new : String) :
    ∀ (l : List Team) (u : Team),
      (l.map Team.id).Nodup →
      (∀ t ∈ l, u.id = t.id → u = t) →
      (∀ t ∈ l, teamInv t) →
      (∀ t ∈ l, t.captain ≠ new ∧ new ∉ t.members) →
      teamInv u →
      teamInv (psiFun old new l (phiFun pick old l u))
  | [], _, _, _, _, _, hu => hu
  | t :: rest, u, hn, hm, hi, hf, hu => by
    obtain ⟨tid, tcap, tmem⟩ := t
    have hn1 : tid ∉ rest.map Team.id := (List.nodup_cons.mp (by simpa using hn)).1
    have hn' : (rest.map Team.id).Nodup := (List.nodup_cons.mp (by simpa using hn)).2
    have htinv : teamInv ⟨tid, tcap, tmem⟩ := hi _ (List.mem_cons_self _ _)
    have htf : tcap ≠ new ∧ new ∉ tmem := hf _ (List.mem_cons_self _ _)
    by_cases hid0 : u.id = tid
    · have hu' : u = ⟨tid, tcap, tmem⟩ := hm _ (List.mem_cons_self _ _) hid0
      subst hu'
      by_cases hcap : (tcap == old) = true
      · have hcap' : tcap = old := by simpa using hcap
        have hctn : (tmem.contains old) = false := by
          have hno : old ∉ tmem := by rw [← hcap']; exact htinv.2
          simp [List.elem_eq_mem, hno]
        rw [phiFun_cons, if_pos hcap,
          phiFun_not_mem pick old rest
            (tempUpd pick old ⟨tid, tcap, tmem⟩ ⟨tid, tcap, tmem⟩)
            (by rw [tempUpd_id]; exact hn1),
          psiFun_cons]
        have hprop : propUpd old new ⟨tid, tcap, tmem⟩
            (tempUpd pick old ⟨tid, tcap, tmem⟩ ⟨tid, tcap, tmem⟩) = ⟨tid, new, tmem⟩ := by
          unfold tempUpd propUpd
          have hno : old ∉ tmem := by simpa [List.elem_eq_mem] using hctn
          simp [hcap, hctn, hno]
        rw [hprop, psiFun_not_mem old new rest ⟨tid, new, tmem⟩ hn1]
        exact ⟨htinv.1, htf.2⟩
      · rw [phiFun_cons, if_neg hcap,
          phiFun_not_mem pick old rest ⟨tid, tcap, tmem⟩ hn1, psiFun_cons]
        by_cases hctn : (tmem.contains old) = true
        · have hprop : propUpd old new ⟨tid, tcap, tmem⟩ ⟨tid, tcap, tmem⟩ =
              ⟨tid, tcap, tmem.map fun m => if m == old then new else m⟩ := by
            unfold propUpd
            have hyes : old ∈ tmem := by simpa [List.elem_eq_mem] using hctn
            simp [hcap, hctn, hyes]
          rw [hprop, psiFun_not_mem old new rest
            ⟨tid, tcap, tmem.map fun m => if m == old then new else m⟩ hn1]
          exact ⟨nodup_map_replace htinv.1 htf.2, not_mem_map_replace htf.1 htinv.2⟩
        · have hprop : propUpd old new ⟨tid, tcap, tmem⟩ ⟨tid, tcap, tmem⟩ =
              ⟨tid, tcap, tmem⟩ := by
            unfold propUpd
            have hno : old ∉ tmem := by simpa [List.elem_eq_mem] using hctn
            simp [hcap, hctn, hno]
          rw [hprop, psiFun_not_mem old new rest ⟨tid, tcap, tmem⟩ hn1]
          exact htinv
    · rw [phiFun_cons]
      have hskip : (if (tcap == old) = true
          then tempUpd pick old ⟨tid, tcap, tmem⟩ u else u) = u := by
        split
        · exact tempUpd_not_id pick old hid0
        · rfl
      rw [hskip, psiFun_cons, propUpd_not_id old new (by rw [phiFun_id]; exact hid0)]
      exact psi_phi_inv_fresh pick old new rest u hn'
        (fun t' ht' h' => hm t' (List.mem_cons_of_mem _ ht') h')
        (fun t' ht' => hi t' (List.mem_cons_of_mem _ ht'))
        (fun t' ht' => hf t' (List.mem_cons_of_mem _ ht')) hu

theorem approve_identity_preserves_inv (pick : List String → String) (st : DB)
    (req : ChangeRequest)
    (hinv : dbTeamsInv st) (hid : teamIdsNodup st)
    (hfresh : effective_new_id req = req.game_id ∨
      ∀ t ∈ st.teams, t.captain ≠ effective_new_id req ∧
        effective_new_id req ∉ t.members) :
    dbTeamsInv (approve_change_request pick false none st req).2 := by
  rcases hS : step2 pick req.game_id (relatedTeams st req.game_id) st []
    with ⟨st2, changes, ok⟩
  cases ok
  · have hres : approve_change_request pick false none st req =
        (false, rollback_temp st2 changes) := by
      unfold approve_change_request
      simp only [hS]
      simp
    have hres2 : rollback_temp st2 changes = st := by
      have := step2_related_restores hid pick req.game_id
      rw [hS] at this
      exact this
    rw [hres]
    show dbTeamsInv (rollback_temp st2 changes)
    rw [hres2]
    exact hinv
  · have hst2 := step2_eq_of_ok pick req.game_id (relatedTeams st req.game_id) st [] hS
    have hres : approve_change_request pick false none st req =
        (true,
          ⟨(mutate_player st2 req.game_id (effective_new_id req) req.new_class).players,
            st2.teams.map (psiFun req.game_id (effective_new_id req)
              (relatedTeams st req.game_id))⟩) := by
      unfold approve_change_request
      simp only [hS]
      rw [step4_none_eq, mutate_player_teams]
      rfl
    rw [hres]
    intro t ht
    simp only at ht
    rw [hst2] at ht
    simp only at ht
    rw [List.map_map] at ht
    obtain ⟨u, hu, he⟩ := List.mem_map.mp ht
    rw [← he]
    show teamInv (psiFun req.game_id (effective_new_id req) (relatedTeams st req.game_id)
      (phiFun pick req.game_id (relatedTeams st req.game_id) u))
    have hm : ∀ t' ∈ relatedTeams st req.game_id, u.id = t'.id → u = t' :=
      fun t' ht' h' => teamIdsNodup_unique hid (List.mem_of_mem_filter ht') hu h'
    rcases hfresh with heq | hfr
    · rw [heq, psi_phi_restore pick req.game_id _ u
        (relatedTeams_ids_nodup hid req.game_id) hm]
      exact hinv u hu
    · exact psi_phi_inv_fresh pick req.game_id (effective_new_id req)
        (relatedTeams st req.game_id) u (relatedTeams_ids_nodup hid req.game_id) hm
        (fun t' ht' => hinv t' (List.mem_of_mem_filter ht'))
        (fun t' ht' => hfr t' (List.mem_of_mem_filter ht'))
        (hinv u hu)

/-- Claim C1 amended: every team-mutating operation preserves the
invariant (`members` duplicate-free, `captain ∉ members`) on all stored
teams under its per-call validation, namely: `create` when the supplied
member list is duplicate-free; `dissolve` always; `setMembers` when the
supplied list excludes the team's captain; `setCaptain` when `newCaptain`
is a current member — but not when `newCaptain` equals the current
captain, a case its precondition also accepts and which appends the
captain to the member list (the counterexample); `removeMember` always;
membership-workflow approval when a `change_captain` request's proposed
captain is still a member and an `add_member` request's target is not
already the captain or a member; and identity-workflow approval when the
effective new id is the old one or appears in no team. -/
theorem team_invariant_preservation :
    (∀ (st : DB) (c : String) (ms : List String) (st' : DB), dbTeamsInv st →
      ms.Nodup → create_team_in_db st c ms = some st' → dbTeamsInv st') ∧
    (∀ (st : DB) (tid : Nat) (ms : List String), dbTeamsInv st →
      dbTeamsInv (delete_team_from_db st tid ms)) ∧
    (∀ (st : DB) (tid : Nat) (ms : List String) (st' : DB), dbTeamsInv st →
      (∀ t ∈ st.teams, t.id = tid → t.captain ∉ ms) →
      update_team_members st tid ms = some st' → dbTeamsInv st') ∧
    (∀ (st : DB) (tid : Nat) (nc : String) (tm : Team) (st' : DB), dbTeamsInv st →
      st.teams.find? (fun t => t.id == tid) = some tm → nc ∈ tm.members →
      update_team_captain st tid nc = some st' → dbTeamsInv st') ∧
    (∀ (st : DB) (tid : Nat) (m : String) (st' : DB), dbTeamsInv st → teamIdsNodup st →
      remove_member_from_team st tid m = some st' → dbTeamsInv st') ∧
    (∀ (st : DB) (req : TeamChangeRequest) (st' : DB), dbTeamsInv st → teamIdsNodup st →
      (∀ tm p, find_team st req.team_id = some tm →
        req.request_type = "change_captain" → req.proposed_captain = some p →
        p ∈ tm.members) →
      (∀ tm a, find_team st req.team_id = some tm →
        req.request_type = "add_member" → req.member_to_add = some a →
        a ∉ tm.members ∧ a ≠ tm.captain) →
      approve_team_change_request st req = some st' → dbTeamsInv st') ∧
    (∀ (pick : List String → String) (st : DB) (req : ChangeRequest), dbTeamsInv st →
      teamIdsNodup st →
      (effective_new_id req = req.game_id ∨
        ∀ t ∈ st.teams, t.captain ≠ effective_new_id req ∧
          effective_new_id req ∉ t.members) →
      dbTeamsInv (approve_change_request pick false none st req).2) :=
  ⟨fun _ _ _ _ hinv hnd h => create_preserves_inv hinv hnd h,
   fun _ tid ms hinv => delete_preserves_inv tid ms hinv,
   fun _ _ _ _ hinv hcap h => update_members_preserves_inv hinv hcap h,
   fun _ _ _ _ _ hinv hfind hmem h => setCaptain_preserves_inv hinv hfind hmem h,
   fun _ _ _ _ hinv hid h => removeMember_preserves_inv hinv hid h,
   fun _ _ _ hinv hid hcc hadd h => approve_team_preserves_inv hinv hid hcc hadd h,
   fun pick st req hinv hid hfresh =>
     approve_identity_preserves_inv pick st req hinv hid hfresh⟩

/-- Witness for C1's amended claim: the handover conjunct applied on
`(captain=A, members=[B,C])` with the member `B` — the resulting team
`(captain=B, members=[C,A])` satisfies the invariant. -/
theorem team_invariant_preservation_wit :
    dbTeamsInv ⟨[], [⟨1, "B", ["C", "A"]⟩]⟩ :=
  team_invariant_preservation.2.2.2.1 ⟨[], [⟨1, "A", ["B", "C"]⟩]⟩ 1 "B"
    ⟨1, "A", ["B", "C"]⟩ ⟨[], [⟨1, "B", ["C", "A"]⟩]⟩
    (by decide) (by decide) (by decide) (by decide)

end GameTeam
